import Mathlib

/-!
Verification development for the booking-system-expo repository
(single source file `src/App.tsx`).

The file shallow-embeds the data model and the operations of the app:

* JavaScript string primitives used by the code (`String.prototype.trim`,
  `toLowerCase`, `includes`) as executable Lean functions on `String`
  (which in this Lean version is a wrapper around `List Char`);
* the zod schema `bookingSchema` and its `safeParse` call in `handleSubmit`;
* the JSON layer (`JSON.stringify` on the booking array and the
  `JSON.parse` call of `loadBookings`) as a character-level printer and
  parser for exactly the blob grammar the app writes;
* the stateful handlers `loadBookings`, `persistBookings`, `handleSubmit`,
  `handleDelete` and the derived list `filteredBookings` as pure state
  transformers over an explicit `AppState` and a storage cell, with the
  possibility of an `AsyncStorage` failure passed in as a boolean flag
  (the thrown exception of the JS runtime), and `Alert.alert` modelled as
  an appended list of user-visible messages.
-/

/-! ## JavaScript string primitives -/

/-- Whitespace in the sense of JavaScript `String.prototype.trim`:
the ECMAScript WhiteSpace and LineTerminator code points. -/
def isJsWhitespace (c : Char) : Bool :=
  c.toNat = 0x9 || c.toNat = 0xa || c.toNat = 0xb || c.toNat = 0xc ||
  c.toNat = 0xd || c.toNat = 0x20 || c.toNat = 0xa0 || c.toNat = 0x1680 ||
  (0x2000 ≤ c.toNat && c.toNat ≤ 0x200a) || c.toNat = 0x2028 ||
  c.toNat = 0x2029 || c.toNat = 0x202f || c.toNat = 0x205f ||
  c.toNat = 0x3000 || c.toNat = 0xfeff

/-- Character-list version of JS `trim`: drop whitespace from both ends. -/
def trimL (l : List Char) : List Char :=
  (l.dropWhile isJsWhitespace).rdropWhile isJsWhitespace

/-- Model of JavaScript `String.prototype.trim` (also the transform done by
`z.string().trim()` in `bookingSchema`). -/
def jsTrim (s : String) : String :=
  ⟨trimL s.data⟩

/-- Model of JavaScript `String.prototype.toLowerCase`. -/
def toLowerStr (s : String) : String :=
  ⟨s.data.map Char.toLower⟩

/-- Helper for `strIncludes`: does `needle` occur at the start of the list? -/
def startsWithL : List Char → List Char → Bool
  | [], _ => true
  | _ :: _, [] => false
  | c :: cs, d :: ds => c = d && startsWithL cs ds

/-- Helper for `strIncludes`: does `needle` occur anywhere in the list? -/
def containsL (needle : List Char) : List Char → Bool
  | [] => startsWithL needle []
  | c :: t => startsWithL needle (c :: t) || containsL needle t

/-- Model of JavaScript `String.prototype.includes`:
`strIncludes s sub` says `sub` is a contiguous substring of `s`. -/
def strIncludes (s sub : String) : Bool :=
  containsL sub.data s.data

/-! ## Data model (`src/App.tsx`, lines 24-38) -/

/-- `SERVICE_OPTIONS` from `src/App.tsx` line 24. The TypeScript type
`ServiceType` is the refinement of `String` by membership in this list. -/
def SERVICE_OPTIONS : List String := ["Haircut", "Massage", "Consultation"]

/-- The `Booking` record type (`src/App.tsx` lines 27-32). The `service`
field is a plain string here; validity (`service ∈ SERVICE_OPTIONS`)
is tracked by the invariant predicates below. -/
structure Booking where
  id : String
  name : String
  date : String
  service : String
deriving DecidableEq

/-- The `FormErrors` type (`src/App.tsx` lines 34-38): per-field optional
error message. -/
structure FormErrors where
  name : Option String := none
  date : Option String := none
  service : Option String := none
deriving DecidableEq

/-! ## Validator (`bookingSchema`, `src/App.tsx` lines 40-46, and the
error-collecting fold of `handleSubmit`, lines 133-143) -/

/-- The raw value passed to `bookingSchema.safeParse` in `handleSubmit`:
the `name` state string, `selectedDate ?? undefined` (a JS `Date`
modelled as its epoch-milliseconds value), and the `service` string. -/
structure RawInput where
  name : String
  date : Option Int
  service : Option String

/-- The normalized success value of `bookingSchema.safeParse`. -/
structure ValidatedInput where
  name : String
  date : Int
  service : String
deriving DecidableEq

/-- Issue produced by `z.string().trim().min(1, "Name is required")`:
the name is trimmed first, then its length is checked. -/
def nameIssue (name : String) : Option String :=
  if 1 ≤ (jsTrim name).length then none else some "Name is required"

/-- Issue produced by `z.date({ required_error: "Date is required" })`:
fails exactly when the value is absent. -/
def dateIssue : Option Int → Option String
  | none => some "Date is required"
  | some _ => none

/-- Issue produced by `z.enum(SERVICE_OPTIONS, ...)` on a present string:
fails exactly when the string is outside the enum, with the constant
message of the custom `errorMap`. -/
def enumIssue (sv : String) : Option String :=
  if sv ∈ SERVICE_OPTIONS then none else some "Service is required"

/-- Issue produced by `z.enum(SERVICE_OPTIONS, ...)` on a possibly absent
value: an absent value also goes through the custom `errorMap`. -/
def serviceIssue : Option String → Option String
  | none => some "Service is required"
  | some sv => enumIssue sv

/-- Model of `bookingSchema.safeParse` combined with the per-field
error-collecting loop of `handleSubmit` (lines 133-141): either a
normalized `ValidatedInput` (name trimmed by the schema) or the
`FormErrors` mapping with one message per failing field. -/
def safeParse (input : RawInput) : Except FormErrors ValidatedInput :=
  match input.date, input.service with
  | some d, some sv =>
    match nameIssue input.name, enumIssue sv with
    | none, none => .ok ⟨jsTrim input.name, d, sv⟩
    | ne, se => .error { name := ne, date := none, service := se }
  | od, os =>
    .error { name := nameIssue input.name, date := dateIssue od,
             service := serviceIssue os }

/-- Field errors of a `safeParse` outcome (`{}` on success), so that
"validation fails with an X error" reads as `(errorsOf r).X.isSome`. -/
def errorsOf : Except FormErrors ValidatedInput → FormErrors
  | .error e => e
  | .ok _ => {}

/-! ## JSON layer

`persistBookings` writes `JSON.stringify(items)` and `loadBookings` reads
it back with `JSON.parse`. Both are embedded at the character level:
`stringifyBookings` produces exactly the text `JSON.stringify` produces
for an array of `Booking` objects (object keys in insertion order,
strings escaped as ECMAScript `JSON.stringify` escapes them), and
`parseBookings` is a parser for that blob grammar; a `none` result of
`parseBookings` models the exception thrown by `JSON.parse`. -/

/-- Lower-case hexadecimal digit for `n < 16`. -/
def hexDigitChar (n : Nat) : Char :=
  if n = 0 then '0' else if n = 1 then '1' else if n = 2 then '2'
  else if n = 3 then '3' else if n = 4 then '4' else if n = 5 then '5'
  else if n = 6 then '6' else if n = 7 then '7' else if n = 8 then '8'
  else if n = 9 then '9' else if n = 10 then 'a' else if n = 11 then 'b'
  else if n = 12 then 'c' else if n = 13 then 'd' else if n = 14 then 'e'
  else 'f'

/-- Value of a hexadecimal digit character. -/
def hexVal (c : Char) : Option Nat :=
  if 48 ≤ c.toNat && c.toNat ≤ 57 then some (c.toNat - 48)
  else if 97 ≤ c.toNat && c.toNat ≤ 102 then some (c.toNat - 87)
  else if 65 ≤ c.toNat && c.toNat ≤ 70 then some (c.toNat - 55)
  else none

/-- How ECMAScript `JSON.stringify` escapes one character inside a string
literal: quote and backslash get a backslash escape, the five named
control characters get their short escapes, the remaining control
characters get a `\u00xx` escape, everything else is copied verbatim. -/
def escapeChar (c : Char) : List Char :=
  if c = '"' then ['\\', '"']
  else if c = '\\' then ['\\', '\\']
  else if c = '\x08' then ['\\', 'b']
  else if c = '\x09' then ['\\', 't']
  else if c = '\x0a' then ['\\', 'n']
  else if c = '\x0c' then ['\\', 'f']
  else if c = '\x0d' then ['\\', 'r']
  else if c.toNat < 32 then
    ['\\', 'u', '0', '0', hexDigitChar (c.toNat / 16), hexDigitChar (c.toNat % 16)]
  else [c]

/-- Escape a whole character list. -/
def escapeList : List Char → List Char
  | [] => []
  | c :: cs => escapeChar c ++ escapeList cs

/-- A JSON string literal: quote, escaped content, quote. -/
def quoteStr (s : String) : List Char :=
  '"' :: (escapeList s.data ++ ['"'])

/-- The text `JSON.stringify` produces for one `Booking` object
(keys in the insertion order of the object literal of `handleSubmit`:
`id`, `name`, `date`, `service`). -/
def stringifyBooking (b : Booking) : List Char :=
  "\x7b\"id\":".data ++ quoteStr b.id ++ ",\"name\":".data ++ quoteStr b.name
    ++ ",\"date\":".data ++ quoteStr b.date
    ++ ",\"service\":".data ++ quoteStr b.service ++ "\x7d".data

/-- Comma-separated concatenation, as `JSON.stringify` renders the
elements of an array. -/
def joinComma : List (List Char) → List Char
  | [] => []
  | [x] => x
  | x :: y :: ys => x ++ ',' :: joinComma (y :: ys)

/-- Model of `JSON.stringify(items)` for the booking array. -/
def stringifyBookings (items : List Booking) : String :=
  ⟨'[' :: (joinComma (items.map stringifyBooking) ++ [']'])⟩

/-- Prepend a character to the parsed content of a string-parser result. -/
def consFst (c : Char) : Option (List Char × List Char) → Option (List Char × List Char)
  | some (s, r) => some (c :: s, r)
  | none => none

/-- Decode one character of a JSON string literal body: a raw character
or one escape sequence. Returns `none` on the closing quote, a bad
escape or exhausted input. -/
def decodeUnit : List Char → Option (Char × List Char)
  | [] => none
  | c :: rest =>
    if c = '"' then none
    else if c = '\\' then
      match rest with
      | [] => none
      | e :: rest2 =>
        if e = '"' then some ('"', rest2)
        else if e = '\\' then some ('\\', rest2)
        else if e = '/' then some ('/', rest2)
        else if e = 'b' then some ('\x08', rest2)
        else if e = 't' then some ('\x09', rest2)
        else if e = 'n' then some ('\x0a', rest2)
        else if e = 'f' then some ('\x0c', rest2)
        else if e = 'r' then some ('\x0d', rest2)
        else if e = 'u' then
          match rest2 with
          | h1 :: h2 :: h3 :: h4 :: rest3 =>
            match hexVal h1, hexVal h2, hexVal h3, hexVal h4 with
            | some a, some b, some c2, some d =>
              some (Char.ofNat (((a * 16 + b) * 16 + c2) * 16 + d), rest3)
            | _, _, _, _ => none
          | _ => none
        else none
    else some (c, rest)

/-- Parse the body of a JSON string literal (the opening quote already
consumed): returns the unescaped content and the input after the
closing quote. The fuel argument only bounds the recursion; each step
consumes input, so input length is enough fuel. -/
def unescape : Nat → List Char → Option (List Char × List Char)
  | 0, _ => none
  | fuel + 1, input =>
    match input with
    | [] => none
    | c :: rest =>
      if c = '"' then some ([], rest)
      else
        match decodeUnit (c :: rest) with
        | some (d, rest2) => consFst d (unescape fuel rest2)
        | none => none

/-- Consume an expected literal from the front of the input. -/
def dropLit : List Char → List Char → Option (List Char)
  | [], input => some input
  | _ :: _, [] => none
  | c :: lit, d :: input => if c = d then dropLit lit input else none

/-- Parse a complete JSON string literal, opening quote included. -/
def parseQuoted : List Char → Option (String × List Char)
  | [] => none
  | c :: rest =>
    if c = '"' then
      match unescape rest.length rest with
      | some (content, r) => some (⟨content⟩, r)
      | none => none
    else none

/-- Parse one serialized `Booking` object. -/
def parseBooking (input : List Char) : Option (Booking × List Char) := do
  let r1 ← dropLit "\x7b\"id\":".data input
  let (idv, r2) ← parseQuoted r1
  let r3 ← dropLit ",\"name\":".data r2
  let (namev, r4) ← parseQuoted r3
  let r5 ← dropLit ",\"date\":".data r4
  let (datev, r6) ← parseQuoted r5
  let r7 ← dropLit ",\"service\":".data r6
  let (servicev, r8) ← parseQuoted r7
  let r9 ← dropLit "\x7d".data r8
  pure (⟨idv, namev, datev, servicev⟩, r9)

/-- Parse a non-empty comma-separated sequence of serialized bookings
followed by the closing bracket. The fuel argument only bounds the
recursion; each step consumes input, so input length is enough fuel. -/
def parseElems : Nat → List Char → Option (List Booking × List Char)
  | 0, _ => none
  | fuel + 1, input =>
    match parseBooking input with
    | none => none
    | some (_, []) => none
    | some (b, c :: rest2) =>
      if c = ',' then
        match parseElems fuel rest2 with
        | some (bs, r) => some (b :: bs, r)
        | none => none
      else if c = ']' then some ([b], rest2)
      else none

/-- Model of the `JSON.parse` call of `loadBookings`: recognizes exactly
the blobs this app writes (a JSON array of booking objects); `none`
models the exception `JSON.parse` throws on malformed text. -/
def parseBookings (stored : String) : Option (List Booking) :=
  match stored.data with
  | [] => none
  | c :: rest =>
    if c = '[' then
      match rest with
      | [] => none
      | d :: rest2 =>
        if d = ']' then (if rest2 = [] then some [] else none)
        else
          match parseElems rest.length rest with
          | some (bs, []) => some bs
          | _ => none
    else none

/-! ## Application state and handlers (`src/App.tsx`, lines 50-176)

The component's UI state relevant to the store flow is collected in
`AppState`; the single `AsyncStorage` cell under `STORAGE_KEY` is an
`Option String` (`none` = key absent). The loading/refreshing/syncing
spinner flags and the date-picker visibility are presentation-only and
carry no design contract, so they are not part of the state model.
`Alert.alert` is modelled by appending the alert message to `alerts`;
a raised-and-caught `AsyncStorage` failure is an input flag. -/

/-- The persisted value under the single storage key
`"booking_management_bookings"`; `none` models an absent key. -/
abbrev Storage := Option String

/-- The component state of `App` (`src/App.tsx`, lines 51-60) restricted
to the fields with store semantics. -/
structure AppState where
  name : String := ""
  selectedDate : Option Int := none
  service : String := SERVICE_OPTIONS[0]!
  errors : FormErrors := {}
  bookings : List Booking := []
  searchQuery : String := ""
  alerts : List String := []
deriving DecidableEq

/-- The alert message of the `catch` branch of `loadBookings`. -/
def loadErrorMsg : String := "Could not load bookings. Please try again."

/-- The alert message of the `catch` branch of `persistBookings`. -/
def saveErrorMsg : String := "Could not save bookings. Please try again."

/-- Model of `persistBookings` (lines 93-103): writes
`JSON.stringify(items)` to the storage cell; if the write throws
(`writeFails`), the error is caught, the cell keeps its old value and
the user is alerted. Returns the new cell and alert list. -/
def persistBookings (writeFails : Bool) (items : List Booking)
    (store : Storage) (alerts : List String) : Storage × List String :=
  if writeFails then (store, alerts ++ [saveErrorMsg])
  else (some (stringifyBookings items), alerts)

/-- Model of `loadBookings` (lines 62-87): a failed read (`readFails`)
or a `JSON.parse` exception is caught and alerted; an absent or empty
(falsy) stored value yields the empty collection; otherwise the parsed
collection replaces the in-memory one. -/
def loadBookings (readFails : Bool) (store : Storage) (s : AppState) : AppState :=
  if readFails then { s with alerts := s.alerts ++ [loadErrorMsg] }
  else
    match store with
    | none => { s with bookings := [] }
    | some stored =>
      if stored = "" then { s with bookings := [] }
      else
        match parseBookings stored with
        | some parsed => { s with bookings := parsed }
        | none => { s with alerts := s.alerts ++ [loadErrorMsg] }

/-- Stand-in for `Date.prototype.toISOString` on the selected date.
No claim depends on the calendar rendering of the timestamp (a concern
of the external JS `Date` runtime), so the meaning-preserving decimal
rendering of the epoch-milliseconds value is used. -/
def toISOStringModel (ms : Int) : String := toString ms

/-- Model of `handleSubmit` (lines 126-161): validate the current form
values; on failure set the per-field errors and stop; on success build
the new record (id from `Date.now()`, passed in as `now`), prepend it,
persist the updated collection and reset the form. Returns the new
state and storage cell. -/
def handleSubmit (now : Int) (writeFails : Bool) (store : Storage)
    (s : AppState) : AppState × Storage :=
  match safeParse ⟨s.name, s.selectedDate, some s.service⟩ with
  | .error fieldErrors => ({ s with errors := fieldErrors }, store)
  | .ok v =>
    let newBooking : Booking :=
      ⟨toString now, jsTrim v.name, toISOStringModel v.date, v.service⟩
    let updatedBookings := newBooking :: s.bookings
    let persisted := persistBookings writeFails updatedBookings store s.alerts
    ({ s with bookings := updatedBookings, alerts := persisted.2,
              name := "", selectedDate := none,
              service := SERVICE_OPTIONS[0]!, errors := {} },
     persisted.1)

/-- Model of `handleDelete` (lines 163-167): drop the records whose id
matches and persist the result. -/
def handleDelete (writeFails : Bool) (id : String) (store : Storage)
    (s : AppState) : AppState × Storage :=
  let filtered := s.bookings.filter (fun booking => booking.id != id)
  let persisted := persistBookings writeFails filtered store s.alerts
  ({ s with bookings := filtered, alerts := persisted.2 }, persisted.1)

/-- Model of the derived value `filteredBookings` (lines 169-176):
keep every record when the trimmed query is empty, otherwise keep the
records whose lower-cased name or service contains the lower-cased
query. -/
def filteredBookings (searchQuery : String) (bookings : List Booking) : List Booking :=
  bookings.filter fun booking =>
    if jsTrim searchQuery = "" then true
    else
      strIncludes (toLowerStr booking.name) (toLowerStr searchQuery)
        || strIncludes (toLowerStr booking.service) (toLowerStr searchQuery)

/-- The matching predicate as the spec states it: the query occurs in
the record's name or service as a case-insensitive substring. -/
def matchesQueryCI (q : String) (b : Booking) : Bool :=
  strIncludes (toLowerStr b.name) (toLowerStr q)
    || strIncludes (toLowerStr b.service) (toLowerStr q)

/-- The record-validity constraints of the spec's data-model invariant:
non-empty name after trimming, service inside the fixed enum. -/
def ValidBooking (b : Booking) : Prop :=
  jsTrim b.name ≠ "" ∧ b.service ∈ SERVICE_OPTIONS

/-- Every record of a collection is valid. -/
def ValidCollection (l : List Booking) : Prop :=
  ∀ b ∈ l, ValidBooking b

/-- Validity of the storage cell: whatever collection its blob parses to
is a valid collection. -/
def ValidStore (store : Storage) : Prop :=
  ∀ blob parsed, store = some blob → parseBookings blob = some parsed →
    ValidCollection parsed

/-- The system invariant of the spec's data model over in-memory
collection and storage cell together. -/
def SysInv (bookings : List Booking) (store : Storage) : Prop :=
  ValidCollection bookings ∧ ValidStore store

/-! ## Helper lemmas: trimming -/

/-- A prefix of a list already stripped of leading whitespace is itself
stripped of leading whitespace. -/
theorem dropWhile_eq_self_of_initial {p : Char → Bool} {l₁ l₂ : List Char}
    (hp : l₁ <+: l₂) (h : List.dropWhile p l₂ = l₂) :
    List.dropWhile p l₁ = l₁ := by
  obtain ⟨u, rfl⟩ := hp
  rw [List.dropWhile_eq_self_iff] at h ⊢
  intro hl
  have hl2 : 0 < (l₁ ++ u).length := by
    rw [List.length_append]; omega
  have h0 := h hl2
  rw [List.get_eq_getElem] at h0 ⊢
  rwa [List.getElem_append_left hl] at h0

/-- Trimming is idempotent at the character-list level. -/
theorem trimL_idem (l : List Char) : trimL (trimL l) = trimL l := by
  unfold trimL
  have hpre := List.rdropWhile_prefix isJsWhitespace (l.dropWhile isJsWhitespace)
  have h2 : ((l.dropWhile isJsWhitespace).rdropWhile isJsWhitespace).dropWhile
      isJsWhitespace = (l.dropWhile isJsWhitespace).rdropWhile isJsWhitespace :=
    dropWhile_eq_self_of_initial hpre (List.dropWhile_idempotent _ _)
  rw [h2, List.rdropWhile_idempotent]

/-- JS `trim` is idempotent. -/
theorem jsTrim_jsTrim (s : String) : jsTrim (jsTrim s) = jsTrim s := by
  apply String.ext
  exact trimL_idem s.data

/-- Trimming a string of whitespace characters gives the empty string. -/
theorem jsTrim_eq_empty_of_whitespace {q : String}
    (h : ∀ c ∈ q.data, isJsWhitespace c = true) : jsTrim q = "" := by
  apply String.ext
  show trimL q.data = []
  unfold trimL
  rw [List.dropWhile_eq_nil_iff.mpr h]
  exact List.rdropWhile_nil _

/-- The name check of the schema succeeds exactly on a name that is
non-empty after trimming. -/
theorem nameIssue_eq_none_iff (name : String) :
    nameIssue name = none ↔ jsTrim name ≠ "" := by
  unfold nameIssue
  rcases h : (jsTrim name).data with _ | ⟨c, t⟩
  · have he : jsTrim name = "" := String.ext h
    simp [String.length, he]
  · have he : jsTrim name ≠ "" := by
      intro hc
      rw [hc] at h
      exact List.noConfusion h
    simp [String.length, h, he]

/-! ## Helper lemmas: JSON round trip -/

/-- Hex digits round-trip for values below 16. -/
theorem hexVal_hexDigitChar {n : Nat} (h : n < 16) :
    hexVal (hexDigitChar n) = some n := by
  interval_cases n <;> decide

/-- Decoding inverts escaping for a single character. -/
theorem decodeUnit_escapeChar (c : Char) (tail : List Char) :
    decodeUnit (escapeChar c ++ tail) = some (c, tail) := by
  by_cases h1 : c = '"'
  · subst h1
    simp [escapeChar, decodeUnit]
  by_cases h2 : c = '\\'
  · subst h2
    simp [escapeChar, decodeUnit]
  by_cases h3 : c = '\x08'
  · subst h3
    simp [escapeChar, decodeUnit]
  by_cases h4 : c = '\x09'
  · subst h4
    simp [escapeChar, decodeUnit]
  by_cases h5 : c = '\x0a'
  · subst h5
    simp [escapeChar, decodeUnit]
  by_cases h6 : c = '\x0c'
  · subst h6
    simp [escapeChar, decodeUnit]
  by_cases h7 : c = '\x0d'
  · subst h7
    simp [escapeChar, decodeUnit]
  by_cases h8 : c.toNat < 32
  · have hdiv : c.toNat / 16 < 16 := by omega
    have hmod : c.toNat % 16 < 16 := Nat.mod_lt _ (by omega)
    simp only [escapeChar, if_neg h1, if_neg h2, if_neg h3, if_neg h4,
      if_neg h5, if_neg h6, if_neg h7, if_pos h8]
    simp [decodeUnit, hexVal_hexDigitChar hdiv, hexVal_hexDigitChar hmod,
      (by decide : hexVal '0' = some 0)]
    have harith : (c.toNat / 16) * 16 + c.toNat % 16 = c.toNat := by omega
    rw [harith, Char.ofNat_toNat]
  · simp only [escapeChar, if_neg h1, if_neg h2, if_neg h3, if_neg h4,
      if_neg h5, if_neg h6, if_neg h7, if_neg h8]
    simp [decodeUnit, h1, h2]

/-- The escape of a character is non-empty and never starts with the
closing quote. -/
theorem escapeChar_head (c : Char) :
    ∃ hd tl, escapeChar c = hd :: tl ∧ ¬hd = '"' := by
  unfold escapeChar
  split_ifs with h1 h2 h3 h4 h5 h6 h7 h8
  all_goals first
    | exact ⟨'\\', _, rfl, by decide⟩
    | exact ⟨c, [], rfl, h1⟩

/-- Escaping does not shorten a string. -/
theorem length_le_length_escapeList (s : List Char) :
    s.length ≤ (escapeList s).length := by
  induction s with
  | nil => simp [escapeList]
  | cons c cs ih =>
    have hc : 1 ≤ (escapeChar c).length := by
      unfold escapeChar
      split_ifs <;> simp
    simp only [escapeList, List.length_append, List.length_cons]
    omega

/-- Unescaping inverts escaping: the escaped content followed by the
closing quote parses back to the original content, given enough fuel. -/
theorem unescape_escapeList (s : List Char) :
    ∀ (fuel : Nat) (rest : List Char), s.length < fuel →
      unescape fuel (escapeList s ++ '"' :: rest) = some (s, rest) := by
  induction s with
  | nil =>
    intro fuel rest h
    match fuel, h with
    | f + 1, _ => simp [escapeList, unescape]
  | cons c cs ih =>
    intro fuel rest h
    match fuel, h with
    | f + 1, h =>
      show unescape (f + 1) ((escapeChar c ++ escapeList cs) ++ '"' :: rest) = _
      rw [List.append_assoc]
      obtain ⟨hd, tl, heq, hne⟩ := escapeChar_head c
      have hdec := decodeUnit_escapeChar c (escapeList cs ++ '"' :: rest)
      rw [heq, List.cons_append] at hdec
      rw [heq, List.cons_append]
      simp only [unescape, if_neg hne, hdec]
      have hlt : cs.length < f := by
        simp only [List.length_cons] at h
        omega
      simp [consFst, ih f rest hlt]

/-- Consuming a literal prefix succeeds and leaves the remainder. -/
theorem dropLit_append (lit rest : List Char) :
    dropLit lit (lit ++ rest) = some rest := by
  induction lit with
  | nil => rfl
  | cons c t ih => simp [dropLit, ih]

/-- Parsing a rendered string literal gives back the string. -/
theorem parseQuoted_quoteStr (s : String) (rest : List Char) :
    parseQuoted (quoteStr s ++ rest) = some (s, rest) := by
  show parseQuoted ('"' :: ((escapeList s.data ++ ['"']) ++ rest)) = _
  rw [List.append_assoc, List.singleton_append]
  have hlen : s.data.length < (escapeList s.data ++ '"' :: rest).length := by
    simp only [List.length_append, List.length_cons]
    have := length_le_length_escapeList s.data
    omega
  have hu := unescape_escapeList s.data (escapeList s.data ++ '"' :: rest).length rest hlen
  simp only [List.length_append, List.length_cons] at hu
  simp [parseQuoted, hu]

/-- Parsing a rendered booking object gives back the booking. -/
theorem parseBooking_stringifyBooking (b : Booking) (rest : List Char) :
    parseBooking (stringifyBooking b ++ rest) = some (b, rest) := by
  unfold parseBooking stringifyBooking
  simp [List.append_assoc, dropLit, parseQuoted_quoteStr]

/-- Every rendered booking starts with the opening brace. -/
theorem stringifyBooking_head (b : Booking) :
    ∃ t, stringifyBooking b = '\x7b' :: t :=
  ⟨_, rfl⟩

/-- Comma-joining lists that are all non-empty yields at least one
character per list. -/
theorem joinComma_length_ge : ∀ ls : List (List Char),
    (∀ x ∈ ls, 0 < x.length) → ls.length ≤ (joinComma ls).length
  | [], _ => by simp [joinComma]
  | [x], h => by
    simpa [joinComma] using h x (by simp)
  | x :: y :: ys, h => by
    have ih := joinComma_length_ge (y :: ys) (fun z hz => h z (by simp [hz]))
    have hx := h x (by simp)
    simp only [joinComma, List.length_append, List.length_cons] at ih ⊢
    omega

/-- Parsing a rendered non-empty element sequence (followed by the
closing bracket) gives back the elements, given enough fuel. -/
theorem parseElems_stringify (items : List Booking) :
    ∀ (b : Booking) (fuel : Nat) (rest : List Char), items.length < fuel →
      parseElems fuel (joinComma ((b :: items).map stringifyBooking) ++ ']' :: rest)
        = some (b :: items, rest) := by
  induction items with
  | nil =>
    intro b fuel rest h
    match fuel, h with
    | f + 1, _ =>
      show parseElems (f + 1) (joinComma [stringifyBooking b] ++ ']' :: rest) = _
      simp [joinComma, parseElems, parseBooking_stringifyBooking]
  | cons b2 items ih =>
    intro b fuel rest h
    match fuel, h with
    | f + 1, h =>
      have hlt : items.length < f := by
        simp only [List.length_cons] at h
        omega
      show parseElems (f + 1)
          (joinComma (stringifyBooking b :: (b2 :: items).map stringifyBooking)
            ++ ']' :: rest) = _
      have hj : joinComma (stringifyBooking b :: (b2 :: items).map stringifyBooking)
          = stringifyBooking b ++ ',' :: joinComma ((b2 :: items).map stringifyBooking) := by
        simp [joinComma]
      rw [hj, List.append_assoc, List.cons_append]
      have hb := parseBooking_stringifyBooking b
        (',' :: (joinComma ((b2 :: items).map stringifyBooking) ++ ']' :: rest))
      have hih := ih b2 f rest hlt
      simp only [List.map_cons] at hb hih ⊢
      simp [parseElems, hb, hih]

/-- Round trip of the JSON layer: the blob `persistBookings` writes
parses back to exactly the collection it was rendered from. -/
theorem parseBookings_stringifyBookings (items : List Booking) :
    parseBookings (stringifyBookings items) = some items := by
  cases items with
  | nil => rfl
  | cons b bs =>
    obtain ⟨t, ht⟩ := stringifyBooking_head b
    have hjoin : ∃ u, joinComma ((b :: bs).map stringifyBooking) = '\x7b' :: u := by
      cases bs with
      | nil => exact ⟨t, by simp [joinComma, ht]⟩
      | cons b2 bs2 =>
        refine ⟨t ++ ',' :: joinComma (stringifyBooking b2 :: bs2.map stringifyBooking), ?_⟩
        rw [List.map_cons, List.map_cons, joinComma, ht, List.cons_append]
    obtain ⟨u, hu⟩ := hjoin
    have hlen : bs.length < (joinComma ((b :: bs).map stringifyBooking) ++ [']']).length := by
      have h1 := joinComma_length_ge ((b :: bs).map stringifyBooking) (by
        intro x hx
        simp only [List.mem_map] at hx
        obtain ⟨z, _, rfl⟩ := hx
        obtain ⟨tz, htz⟩ := stringifyBooking_head z
        simp [htz])
      simp only [List.length_append, List.length_cons, List.length_map,
        List.length_nil] at h1 ⊢
      omega
    have hpe := parseElems_stringify bs b
      (joinComma ((b :: bs).map stringifyBooking) ++ [']']).length [] hlen
    show parseBookings ⟨'[' :: (joinComma ((b :: bs).map stringifyBooking) ++ [']'])⟩ = _
    rw [hu] at hpe ⊢
    rw [List.cons_append] at hpe ⊢
    simp only [List.length_append, List.length_cons, List.length_nil,
      Nat.add_zero, Nat.zero_add] at hpe
    simp [parseBookings, hpe]

/-! ## Helper lemmas: validator -/

/-- The name check fails exactly on a name that is empty after trimming. -/
theorem nameIssue_isSome_iff (nm : String) :
    (nameIssue nm).isSome = true ↔ jsTrim nm = "" := by
  by_cases h : jsTrim nm = ""
  · have h0 : (jsTrim nm).length = 0 := by rw [h]; rfl
    have h1 : ¬ 1 ≤ (jsTrim nm).length := by omega
    simp [nameIssue, h1, h]
  · have h1 : nameIssue nm = none := (nameIssue_eq_none_iff nm).mpr h
    simp [h1, h]

/-- The enum check succeeds exactly on a member of the fixed enum. -/
theorem enumIssue_eq_none_iff (sv : String) :
    enumIssue sv = none ↔ sv ∈ SERVICE_OPTIONS := by
  unfold enumIssue
  split_ifs with h <;> simp [h]

/-- The enum check fails exactly outside the fixed enum. -/
theorem enumIssue_isSome_iff (sv : String) :
    (enumIssue sv).isSome = true ↔ sv ∉ SERVICE_OPTIONS := by
  unfold enumIssue
  split_ifs with h <;> simp [h]

/-- Facts available about the success value of the validator: the name
is the trimmed input name, it is stably non-empty, and the service is
in the fixed enum. -/
theorem safeParse_ok_props {input : RawInput} {v : ValidatedInput}
    (h : safeParse input = .ok v) :
    v.name = jsTrim input.name ∧ jsTrim v.name ≠ "" ∧ v.service ∈ SERVICE_OPTIONS := by
  obtain ⟨nm, od, os⟩ := input
  rcases od with _ | d
  · simp [safeParse] at h
  rcases os with _ | sv
  · simp [safeParse] at h
  rcases hn : nameIssue nm with _ | m
  · rcases he : enumIssue sv with _ | m2
    · simp [safeParse, hn, he] at h
      subst h
      refine ⟨rfl, ?_, ?_⟩
      · show jsTrim (jsTrim nm) ≠ ""
        rw [jsTrim_jsTrim]
        exact (nameIssue_eq_none_iff nm).mp hn
      · exact (enumIssue_eq_none_iff sv).mp he
    · simp [safeParse, hn, he] at h
  · simp [safeParse, hn] at h

/-! ## Claim C1 -/

/-- C1: for every input, validation fails with a name error exactly when
the name is empty after trimming, with a date error exactly when the
date is absent, and with a service error exactly when the service is
absent or outside the fixed enum; on success the normalized value's
name is the trimmed input name. -/
theorem validator_field_errors (input : RawInput) :
    ((errorsOf (safeParse input)).name.isSome = true ↔ jsTrim input.name = "")
    ∧ ((errorsOf (safeParse input)).date.isSome = true ↔ input.date = none)
    ∧ ((errorsOf (safeParse input)).service.isSome = true ↔
        ∀ sv, input.service = some sv → sv ∉ SERVICE_OPTIONS)
    ∧ ∀ v, safeParse input = .ok v → v.name = jsTrim input.name := by
  obtain ⟨nm, od, os⟩ := input
  rcases od with _ | d
  · refine ⟨?_, ?_, ?_, ?_⟩
    · simpa [safeParse, errorsOf] using nameIssue_isSome_iff nm
    · simp [safeParse, errorsOf, dateIssue]
    · rcases os with _ | sv
      · simp [safeParse, errorsOf, serviceIssue]
      · simpa [safeParse, errorsOf, serviceIssue] using enumIssue_isSome_iff sv
    · intro v hv
      simp [safeParse] at hv
  rcases os with _ | sv
  · refine ⟨?_, ?_, ?_, ?_⟩
    · simpa [safeParse, errorsOf] using nameIssue_isSome_iff nm
    · simp [safeParse, errorsOf, dateIssue]
    · simp [safeParse, errorsOf, serviceIssue]
    · intro v hv
      simp [safeParse] at hv
  rcases hn : nameIssue nm with _ | m
  · rcases he : enumIssue sv with _ | m2
    · refine ⟨?_, ?_, ?_, ?_⟩
      · simpa [safeParse, errorsOf, hn, he] using (nameIssue_eq_none_iff nm).mp hn
      · simp [safeParse, errorsOf, hn, he]
      · simpa [safeParse, errorsOf, hn, he] using (enumIssue_eq_none_iff sv).mp he
      · intro v hv
        simp [safeParse, hn, he] at hv
        rw [← hv]
    · refine ⟨?_, ?_, ?_, ?_⟩
      · simpa [safeParse, errorsOf, hn, he] using (nameIssue_eq_none_iff nm).mp hn
      · simp [safeParse, errorsOf, hn, he]
      · have hsv := (enumIssue_isSome_iff sv).mp (by simp [he])
        simp [safeParse, errorsOf, hn, he, hsv]
      · intro v hv
        simp [safeParse, hn, he] at hv
  · refine ⟨?_, ?_, ?_, ?_⟩
    · have hnm := (nameIssue_isSome_iff nm).mp (by simp [hn])
      simp [safeParse, errorsOf, hn, hnm]
    · simp [safeParse, errorsOf, hn]
    · rcases he : enumIssue sv with _ | m2
      · simpa [safeParse, errorsOf, hn, he] using (enumIssue_eq_none_iff sv).mp he
      · have hsv := (enumIssue_isSome_iff sv).mp (by simp [he])
        simp [safeParse, errorsOf, hn, he, hsv]
    · intro v hv
      simp [safeParse, hn] at hv

/-- Witness for C1 at concrete inputs: a whitespace-only name yields a
name error, and a valid input's normalized name is its trimmed name. -/
theorem validator_field_errors_witness :
    (errorsOf (safeParse ⟨" ", none, some "Yoga"⟩)).name.isSome = true
    ∧ ValidatedInput.name ⟨"Alice", 0, "Haircut"⟩ = jsTrim "Alice" := by
  constructor
  · exact (validator_field_errors ⟨" ", none, some "Yoga"⟩).1.mpr (by decide)
  · exact (validator_field_errors ⟨"Alice", some 0, some "Haircut"⟩).2.2.2
      ⟨"Alice", 0, "Haircut"⟩ rfl

/-! ## Claim C2 -/

/-- C2: a successful submission prepends exactly the one new record to
the collection, writes the serialized blob of the updated collection to
storage, and that blob deserializes back to a collection equal to the
in-memory one. -/
theorem submit_prepends_and_roundtrips (s : AppState) (store : Storage)
    (now : Int) (v : ValidatedInput)
    (h : safeParse ⟨s.name, s.selectedDate, some s.service⟩ = .ok v) :
    (handleSubmit now false store s).1.bookings
        = ⟨toString now, jsTrim v.name, toISOStringModel v.date, v.service⟩ :: s.bookings
    ∧ (handleSubmit now false store s).2
        = some (stringifyBookings ((handleSubmit now false store s).1.bookings))
    ∧ parseBookings (stringifyBookings ((handleSubmit now false store s).1.bookings))
        = some ((handleSubmit now false store s).1.bookings) := by
  unfold handleSubmit
  rw [h]
  exact ⟨rfl, rfl, parseBookings_stringifyBookings _⟩

/-- Witness for C2 at the spec's example input (name Alice, a concrete
date, service Haircut) against the empty collection. -/
theorem submit_prepends_and_roundtrips_witness :
    (handleSubmit 5 false none
        { name := "Alice", selectedDate := some 0, service := "Haircut" }).1.bookings
      = ⟨"5", "Alice", "0", "Haircut"⟩ :: ([] : List Booking)
    ∧ parseBookings (stringifyBookings ((handleSubmit 5 false none
        { name := "Alice", selectedDate := some 0, service := "Haircut" }).1.bookings))
      = some ((handleSubmit 5 false none
        { name := "Alice", selectedDate := some 0, service := "Haircut" }).1.bookings) := by
  have h := submit_prepends_and_roundtrips
    { name := "Alice", selectedDate := some 0, service := "Haircut" }
    none 5 ⟨"Alice", 0, "Haircut"⟩ rfl
  refine ⟨?_, h.2.2⟩
  rw [h.1]
  decide

/-! ## Claim C3 -/

/-- A name that is empty after trimming makes the name check fail with
its fixed message. -/
theorem nameIssue_of_trim_empty {nm : String} (h : jsTrim nm = "") :
    nameIssue nm = some "Name is required" := by
  unfold nameIssue
  rw [h]
  decide

/-- C3: for an input whose name is empty or whitespace-only (empty after
trimming), submission fails validation with a name error and leaves
both the in-memory collection and the storage cell unchanged. -/
theorem empty_name_rejected (s : AppState) (store : Storage) (now : Int)
    (writeFails : Bool) (h : jsTrim s.name = "") :
    (handleSubmit now writeFails store s).1.bookings = s.bookings
    ∧ (handleSubmit now writeFails store s).2 = store
    ∧ (handleSubmit now writeFails store s).1.errors.name.isSome = true := by
  have hn := nameIssue_of_trim_empty h
  unfold handleSubmit safeParse
  rcases hsd : s.selectedDate with _ | d
  · simp [hsd, hn]
  · simp [hsd, hn]

/-- Witness for C3: a whitespace-only name against a one-element
collection changes neither the collection nor the storage cell. -/
theorem empty_name_rejected_witness :
    (handleSubmit 7 false (some "[]")
        { name := " ", bookings := [⟨"1", "A", "d", "Haircut"⟩] }).1.bookings
      = [⟨"1", "A", "d", "Haircut"⟩]
    ∧ (handleSubmit 7 false (some "[]")
        { name := " ", bookings := [⟨"1", "A", "d", "Haircut"⟩] }).2
      = some "[]" := by
  have h := empty_name_rejected
    { name := " ", bookings := [⟨"1", "A", "d", "Haircut"⟩] }
    (some "[]") 7 false (by decide)
  exact ⟨h.1, h.2.1⟩

/-! ## Claim C4 -/

/-- C4: delete removes exactly the records with the matching identifier
and persists the updated collection; when no record matches, the
collection is unchanged; the relative order of the remaining records is
preserved (the result is a sublist of the original collection). -/
theorem delete_removes_and_persists (s : AppState) (id : String) (store : Storage) :
    (∀ b, b ∈ (handleDelete false id store s).1.bookings ↔ b ∈ s.bookings ∧ b.id ≠ id)
    ∧ ((handleDelete false id store s).1.bookings).Sublist s.bookings
    ∧ ((∀ b ∈ s.bookings, b.id ≠ id) → (handleDelete false id store s).1.bookings = s.bookings)
    ∧ (handleDelete false id store s).2
        = some (stringifyBookings ((handleDelete false id store s).1.bookings)) := by
  have hbl : (handleDelete false id store s).1.bookings
      = s.bookings.filter (fun b => b.id != id) := rfl
  refine ⟨?_, ?_, ?_, rfl⟩
  · intro b
    rw [hbl, List.mem_filter]
    simp
  · rw [hbl]
    exact List.filter_sublist _
  · intro hnone
    rw [hbl, List.filter_eq_self]
    intro a ha
    simpa using hnone a ha

/-- Witness for C4: deleting an absent identifier leaves a concrete
one-element collection unchanged. -/
theorem delete_removes_and_persists_witness :
    (handleDelete false "9" none
        { bookings := [⟨"1", "A", "d", "Haircut"⟩] }).1.bookings
      = [⟨"1", "A", "d", "Haircut"⟩] :=
  (delete_removes_and_persists
    { bookings := [⟨"1", "A", "d", "Haircut"⟩] } "9" none).2.2.1 (by decide)

/-! ## Claim C5 -/

/-- Counterexample to C5 as stated: the whitespace query `" "` is a
non-empty free-text query, and on it the filter returns a record whose
name and service do not contain the query as a case-insensitive
substring — not the subsequence of substring-matching records the
claim describes. -/
theorem search_filter_claim_counterexample :
    (" " : String) ≠ ""
    ∧ filteredBookings " " [⟨"2", "Ann", "d", "Consultation"⟩]
        = [⟨"2", "Ann", "d", "Consultation"⟩]
    ∧ matchesQueryCI " " ⟨"2", "Ann", "d", "Consultation"⟩ = false := by
  refine ⟨by decide, by decide, by decide⟩

/-- C5 (amended): for every query that is empty or whitespace-only
(trims to empty) the filter returns the full collection unchanged; for
every other query it returns exactly the subsequence of records whose
name or service contains the query as a case-insensitive substring;
store order is always preserved (the result is a sublist). -/
theorem search_filter_spec (q : String) (bookings : List Booking) :
    (jsTrim q = "" → filteredBookings q bookings = bookings)
    ∧ (jsTrim q ≠ "" →
        filteredBookings q bookings = bookings.filter (matchesQueryCI q))
    ∧ (filteredBookings q bookings).Sublist bookings := by
  refine ⟨?_, ?_, ?_⟩
  · intro h
    unfold filteredBookings
    simp [h]
  · intro h
    unfold filteredBookings matchesQueryCI
    simp [h]
  · exact List.filter_sublist _

/-- Witness for C5 (amended) at the spec's example: query `"jon"`
returns only the Bob Jones record. -/
theorem search_filter_spec_witness :
    filteredBookings "jon"
        [⟨"1", "Bob Jones", "d1", "Massage"⟩, ⟨"2", "Ann", "d2", "Consultation"⟩]
      = [⟨"1", "Bob Jones", "d1", "Massage"⟩] := by
  have h := (search_filter_spec "jon"
    [⟨"1", "Bob Jones", "d1", "Massage"⟩, ⟨"2", "Ann", "d2", "Consultation"⟩]).2.1
    (by decide)
  rw [h]
  decide

/-! ## Claim C9 -/

/-- C9: a query consisting only of whitespace characters is treated
exactly like the empty query — the filter returns the full collection
in store order. -/
theorem whitespace_query_returns_all (q : String) (bookings : List Booking)
    (h : ∀ c ∈ q.data, isJsWhitespace c = true) :
    filteredBookings q bookings = filteredBookings "" bookings
    ∧ filteredBookings "" bookings = bookings := by
  have hq : jsTrim q = "" := jsTrim_eq_empty_of_whitespace h
  have h2 : filteredBookings "" bookings = bookings := by
    unfold filteredBookings
    simp [(by decide : jsTrim "" = "")]
  constructor
  · unfold filteredBookings
    simp [hq, (by decide : jsTrim "" = "")]
  · exact h2

/-- Witness for C9: the two-space query returns a concrete collection
unchanged. -/
theorem whitespace_query_returns_all_witness :
    filteredBookings "  " [⟨"1", "A", "d", "Haircut"⟩] = [⟨"1", "A", "d", "Haircut"⟩] := by
  have h := whitespace_query_returns_all "  " [⟨"1", "A", "d", "Haircut"⟩] (by decide)
  rw [h.1, h.2]

/-! ## Claim C6 -/

/-- C6: load yields the empty collection when the stored value is absent
or empty, yields the parsed collection when a parsable blob is present,
and on a read or parse failure surfaces the user-visible alert instead
of propagating the failure (the state is otherwise unchanged). -/
theorem load_spec (s : AppState) (blob : String) (parsed : List Booking)
    (store : Storage) :
    (loadBookings false none s).bookings = []
    ∧ (loadBookings false (some "") s).bookings = []
    ∧ (parseBookings blob = some parsed →
        (loadBookings false (some blob) s).bookings = parsed)
    ∧ (parseBookings blob = none → blob ≠ "" →
        loadBookings false (some blob) s
          = { s with alerts := s.alerts ++ [loadErrorMsg] })
    ∧ loadBookings true store s = { s with alerts := s.alerts ++ [loadErrorMsg] } := by
  refine ⟨rfl, ?_, ?_, ?_, rfl⟩
  · unfold loadBookings
    simp
  · intro hp
    by_cases hb : blob = ""
    · subst hb
      have : parseBookings "" = none := rfl
      rw [this] at hp
      exact Option.noConfusion hp
    · unfold loadBookings
      simp [hb, hp]
  · intro hp hb
    unfold loadBookings
    simp [hb, hp]

/-- Witness for C6: an empty-array blob loads to the empty collection,
and an unparsable blob only appends the load alert. -/
theorem load_spec_witness :
    (loadBookings false (some "[]") {}).bookings = []
    ∧ loadBookings false (some "x") {}
        = { ({} : AppState) with alerts := [] ++ [loadErrorMsg] } := by
  constructor
  · exact (load_spec {} "[]" [] none).2.2.1 (by decide)
  · exact (load_spec {} "x" [] none).2.2.2.1 (by decide) (by decide)

/-! ## Claim C10 -/

/-- C10: a failed load (read failure or parse failure) leaves the
in-memory collection unchanged at its previous value. -/
theorem load_failure_atomic (s : AppState) (blob : String) (store : Storage) :
    (parseBookings blob = none → blob ≠ "" →
      (loadBookings false (some blob) s).bookings = s.bookings)
    ∧ (loadBookings true store s).bookings = s.bookings := by
  refine ⟨?_, rfl⟩
  intro hp hb
  unfold loadBookings
  simp [hb, hp]

/-- Witness for C10: an unparsable blob leaves a concrete non-empty
collection in place. -/
theorem load_failure_atomic_witness :
    (loadBookings false (some "x")
        { bookings := [⟨"1", "A", "d", "Haircut"⟩] }).bookings
      = [⟨"1", "A", "d", "Haircut"⟩] :=
  (load_failure_atomic { bookings := [⟨"1", "A", "d", "Haircut"⟩] } "x" none).1
    (by decide) (by decide)

/-! ## Claim C7 -/

/-- C7: when the storage write fails during an insert or a delete, the
in-memory collection keeps the optimistically updated value (no
rollback), the storage cell is unchanged, and the user is notified via
the save alert; the failure is absorbed, not propagated. -/
theorem persist_failure_no_rollback (s : AppState) (store : Storage) (now : Int)
    (id : String) (v : ValidatedInput)
    (h : safeParse ⟨s.name, s.selectedDate, some s.service⟩ = .ok v) :
    ((handleSubmit now true store s).1.bookings
        = ⟨toString now, jsTrim v.name, toISOStringModel v.date, v.service⟩ :: s.bookings
      ∧ (handleSubmit now true store s).2 = store
      ∧ (handleSubmit now true store s).1.alerts = s.alerts ++ [saveErrorMsg])
    ∧ ((handleDelete true id store s).1.bookings
        = s.bookings.filter (fun b => b.id != id)
      ∧ (handleDelete true id store s).2 = store
      ∧ (handleDelete true id store s).1.alerts = s.alerts ++ [saveErrorMsg]) := by
  constructor
  · unfold handleSubmit
    rw [h]
    exact ⟨rfl, rfl, rfl⟩
  · exact ⟨rfl, rfl, rfl⟩

/-- Witness for C7: on a failing write, submitting Alice against an
empty collection keeps the new record in memory while the storage cell
keeps its old value. -/
theorem persist_failure_no_rollback_witness :
    (handleSubmit 5 true (some "[]")
        { name := "Alice", selectedDate := some 0, service := "Haircut" }).1.bookings
      = ⟨"5", "Alice", "0", "Haircut"⟩ :: ([] : List Booking)
    ∧ (handleSubmit 5 true (some "[]")
        { name := "Alice", selectedDate := some 0, service := "Haircut" }).2
      = some "[]" := by
  have h := persist_failure_no_rollback
    { name := "Alice", selectedDate := some 0, service := "Haircut" }
    (some "[]") 5 "z" ⟨"Alice", 0, "Haircut"⟩ rfl
  refine ⟨?_, h.1.2.1⟩
  rw [h.1.1]
  decide

/-! ## Claim C8 -/

/-- C8: the data-model invariant — every booking in memory, and every
booking in whatever collection the storage blob parses to, has a
non-empty trimmed name and a service inside the fixed enum — is
preserved by load, by submit (insert) and by delete, for any outcome of
the storage operation. -/
theorem store_invariant_preserved (s : AppState) (store : Storage) (now : Int)
    (writeFails readFails : Bool) (id : String)
    (hinv : SysInv s.bookings store) :
    SysInv (loadBookings readFails store s).bookings store
    ∧ SysInv (handleSubmit now writeFails store s).1.bookings
        (handleSubmit now writeFails store s).2
    ∧ SysInv (handleDelete writeFails id store s).1.bookings
        (handleDelete writeFails id store s).2 := by
  obtain ⟨hmem, hstore⟩ := hinv
  refine ⟨⟨?_, hstore⟩, ?_, ?_⟩
  · cases readFails with
    | true => exact hmem
    | false =>
      rcases store with _ | blob
      · intro b hb
        simp [loadBookings] at hb
      · by_cases hb : blob = ""
        · subst hb
          intro b hbm
          have he : (loadBookings false (some "") s).bookings = [] := by
            unfold loadBookings
            simp
          rw [he] at hbm
          simp at hbm
        · rcases hp : parseBookings blob with _ | parsed
          · have he : (loadBookings false (some blob) s).bookings = s.bookings := by
              unfold loadBookings
              simp [hb, hp]
            rw [he]
            exact hmem
          · have he : (loadBookings false (some blob) s).bookings = parsed := by
              unfold loadBookings
              simp [hb, hp]
            rw [he]
            exact hstore blob parsed rfl hp
  · rcases hsp : safeParse ⟨s.name, s.selectedDate, some s.service⟩ with e | v
    · unfold handleSubmit
      rw [hsp]
      exact ⟨hmem, hstore⟩
    · obtain ⟨_, hvne, hvs⟩ := safeParse_ok_props hsp
      have hupd : ValidCollection
          (⟨toString now, jsTrim v.name, toISOStringModel v.date, v.service⟩
            :: s.bookings) := by
        intro b hbm
        rcases List.mem_cons.mp hbm with rfl | hbm2
        · refine ⟨?_, hvs⟩
          show jsTrim (jsTrim v.name) ≠ ""
          rw [jsTrim_jsTrim]
          exact hvne
        · exact hmem b hbm2
      unfold handleSubmit
      rw [hsp]
      refine ⟨hupd, ?_⟩
      cases writeFails with
      | true => exact hstore
      | false =>
        intro blob parsed hblob hparse
        have hblob2 : stringifyBookings
            (⟨toString now, jsTrim v.name, toISOStringModel v.date, v.service⟩
              :: s.bookings) = blob := Option.some.inj hblob
        rw [← hblob2, parseBookings_stringifyBookings] at hparse
        have hpp := Option.some.inj hparse
        rw [← hpp]
        exact hupd
  · have hfil : ValidCollection (s.bookings.filter (fun b => b.id != id)) := by
      intro b hbm
      exact hmem b (List.mem_of_mem_filter hbm)
    refine ⟨hfil, ?_⟩
    cases writeFails with
    | true => exact hstore
    | false =>
      intro blob parsed hblob hparse
      have hblob2 : stringifyBookings (s.bookings.filter (fun b => b.id != id))
          = blob := Option.some.inj hblob
      rw [← hblob2, parseBookings_stringifyBookings] at hparse
      have hpp := Option.some.inj hparse
      rw [← hpp]
      exact hfil

/-- Witness for C8 from the empty initial state (empty collection,
absent storage key), where the invariant holds trivially. -/
theorem store_invariant_preserved_witness :
    SysInv (loadBookings false none {}).bookings none
    ∧ SysInv (handleSubmit 0 false none {}).1.bookings
        (handleSubmit 0 false none {}).2 := by
  have hinv : SysInv ({} : AppState).bookings none :=
    ⟨fun b hb => absurd hb (List.not_mem_nil b),
     fun blob parsed hb _ => Option.noConfusion hb⟩
  have h := store_invariant_preserved {} none 0 false false "x" hinv
  exact ⟨h.1, h.2.1⟩
